import Mathlib

/-!
Verification of the slurmy core: the generic backend configuration and
script-preparation component (`src/backends/base.py`) and the progress
printer (`src/tools/printer.py`).

Script texts are modelled as lists of characters (`Str`); the Python string
operations the source uses (`str.strip`, `str.startswith`, `in`,
`str.split('\n', 1)`) are given explicit executable models below.
A raised Python exception is modelled by an `Option` result being `none`.
-/

set_option autoImplicit false

abbrev Str := List Char

/-- The whitespace characters stripped by Python's `str.strip()`. -/
def pyIsSpace (c : Char) : Bool :=
  c = ' ' || c = '\t' || c = '\n' || c = '\r' || c = '\x0b' || c = '\x0c'

/-- `lpre n h`: `n` is a leading piece of `h` (Python `h.startswith(n)`). -/
def lpre : Str → Str → Bool
  | [], _ => true
  | _ :: _, [] => false
  | a :: as, b :: bs => a == b && lpre as bs

/-- `lsub n h`: `n` occurs contiguously inside `h` (Python `n in h`). -/
def lsub (n : Str) : Str → Bool
  | [] => lpre n []
  | c :: t => lpre n (c :: t) || lsub n t

/-- Strip trailing Python whitespace. -/
def rstrip (s : Str) : Str := (s.reverse.dropWhile pyIsSpace).reverse

/-- Python `s.strip()`: drop leading and trailing whitespace. -/
def pyStrip (s : Str) : Str := rstrip (s.dropWhile pyIsSpace)

/-- Split a script text at every newline, like Python `s.split('\n')`:
the last element is the (possibly empty) piece after the final newline. -/
def splitLines : Str → List Str
  | [] => [[]]
  | c :: cs =>
    if c = '\n' then [] :: splitLines cs
    else
      match splitLines cs with
      | [] => [[c]]
      | l :: ls => (c :: l) :: ls

/-- Rejoin the pieces produced by `splitLines` with single newlines. -/
def joinL : List Str → Str
  | [] => []
  | [x] => x
  | x :: y :: ys => x ++ '\n' :: joinL (y :: ys)

/-! ## Backend configuration values (`src/backends/base.py`)

A backend instance's `__dict__` is a finite map from attribute names to
Python values.  Values are modelled by `PyVal`, with Python truthiness.
The concrete backend class of an instance is modelled by a numeric class
id `cls`; the `isinstance(config, self.__class__)` test in `sync` is
modelled by equality of class ids (the source tree defines a single
backend class, `Base`). -/

inductive PyVal where
  | vnone : PyVal
  | vstr : Str → PyVal
  | vint : Int → PyVal
  | vbool : Bool → PyVal
deriving DecidableEq, Repr

/-- Python truthiness of a value. -/
def PyVal.truthy : PyVal → Bool
  | .vnone => false
  | .vstr s => !s.isEmpty
  | .vint n => n != 0
  | .vbool b => b

/-- Python `a or b`: `a` when `a` is truthy, otherwise `b`. -/
def pyOr (a b : PyVal) : PyVal := if a.truthy then a else b

/-- A backend instance: its concrete class and its attribute dictionary. -/
structure Backend where
  cls : Nat
  fields : List (Str × PyVal)
deriving DecidableEq, Repr

/-- Python's "private" (underscore-led) attribute-name test
(`key.startswith('_')` in `sync`). -/
def isPriv : Str → Bool
  | '_' :: _ => true
  | _ => false

/-- `config[key]`, i.e. `config.__dict__[key]`; `none` models a `KeyError`. -/
def lookupField : List (Str × PyVal) → Str → Option PyVal
  | [], _ => none
  | (k, v) :: rest, key => if k = key then some v else lookupField rest key

/-- One pass of `Base.sync`'s loop over the receiver's `__dict__`
(`self[key] = self[key] or config[key]` for every non-private key);
`none` models the `KeyError` raised when `config` lacks one of the keys. -/
def syncFields (other : List (Str × PyVal)) : List (Str × PyVal) → Option (List (Str × PyVal))
  | [] => some []
  | (k, v) :: rest =>
    if isPriv k then (syncFields other rest).map ((k, v) :: ·)
    else
      match lookupField other k with
      | none => none
      | some ov => (syncFields other rest).map ((k, pyOr v ov) :: ·)

/-- `Base.sync(config)` (src/backends/base.py lines 39-47): no-op on `None`,
logged no-op on a class mismatch, otherwise fill every falsy non-private
field from `config`.  The returned value is the receiver's state after the
call; `none` models an uncaught exception. -/
def sync (self : Backend) (config : Option Backend) : Option Backend :=
  match config with
  | none => some self
  | some c =>
    if c.cls ≠ self.cls then some self
    else (syncFields c.fields self.fields).map (fun fs => { self with fields := fs })

/-! ## Script preparation (`src/backends/base.py` lines 49-96)

`_add_singularity_command` splits the remaining tail at its first newline
(`tail.split('\n', 1)` — a `ValueError` when the tail holds no newline,
modelled by `none`), strips the line, and either inserts the guard command
before the first non-blank non-comment line, inserts it right after the
current line when the backend options identifier is set and `'#' + ident`
no longer occurs in the tail, or keeps the stripped line and recurses.
The recursion is modelled on the list of lines of the tail; at every step
the Python tail string is `joinL` of the remaining lines. -/

/-- The stripped line is non-blank and not a comment
(`if line and not line.startswith('#')`). -/
def isExecL (l : Str) : Bool := !(pyStrip l).isEmpty && !(lpre ['#'] (pyStrip l))

/-- The recursive scanner `add_command(tail, head)` of
`Base._add_singularity_command`, on the lines of the tail.
`none` models the `ValueError` raised by `tail.split('\n', 1)`
when the scanner reaches the final newline-free piece. -/
def addCommandL (ident command : Str) : List Str → Str → Option Str
  | [], _ => none
  | [_], _ => none
  | l0 :: l1 :: ls, head =>
    if isExecL l0 then
      some (head ++ command ++ pyStrip l0 ++ '\n' :: joinL (l1 :: ls))
    else if !ident.isEmpty && !(lsub ('#' :: ident) (joinL (l1 :: ls))) then
      some (head ++ pyStrip l0 ++ '\n' :: (command ++ joinL (l1 :: ls)))
    else
      addCommandL ident command (l1 :: ls) (head ++ pyStrip l0 ++ ['\n'])

/-- The guard block inserted by `_add_singularity_command`:
`'if [[ -z "$SINGULARITY_INIT" ]]\nthen\n  singularity exec {image} $0 $@\n  exit $?\nfi\n'`. -/
def singularityCommand (image : Str) : Str :=
  "if [[ -z \"$SINGULARITY_INIT\" ]]\nthen\n  singularity exec ".data
    ++ image ++ " $0 $@\n  exit $?\nfi\n".data

/-- `Base._add_singularity_command(image_path)` applied to a run-script text. -/
def addSingularityCommand (ident image runScript : Str) : Option Str :=
  addCommandL ident (singularityCommand image) (splitLines runScript) []

/-- `Base._script_options_identifier` default: the empty string. -/
def baseScriptOptionsIdentifier : Str := []

/-- The text-transformation core of `Base.write_script` (lines 49-65), after
the optional template-file inlining: prepend `#!/bin/bash` when the text does
not start with `#!`, then inject the isolation guard when an image is given.
`none` models an uncaught exception from the injection scanner. -/
def writeScriptText (ident runScript : Str) (image : Option Str) : Option Str :=
  let s := if lpre "#!".data runScript then runScript else "#!/bin/bash\n".data ++ runScript
  match image with
  | none => some s
  | some img => addSingularityCommand ident img s

/-- Insertion index of the scanner together with the branch taken there:
`true` for insertion before a non-blank non-comment line, `false` for
insertion after a blank-or-comment line whose tail is free of directives. -/
def scanIdx (ident : Str) : List Str → Option (Nat × Bool)
  | [] => none
  | [_] => none
  | l0 :: l1 :: ls =>
    if isExecL l0 then some (0, true)
    else if !ident.isEmpty && !(lsub ('#' :: ident) (joinL (l1 :: ls))) then some (0, false)
    else (scanIdx ident (l1 :: ls)).map (fun kb => (kb.1 + 1, kb.2))

/-- The scanned prefix of the output: every kept line, stripped, with a newline. -/
def stripJoin (ls : List Str) : Str := (ls.map (fun l => pyStrip l ++ ['\n'])).flatten

/-- The output piece from the insertion line onwards, by branch. -/
def insertAt (command : Str) (ls : List Str) (k : Nat) (b : Bool) : Str :=
  if b then command ++ pyStrip (ls.getD k []) ++ '\n' :: joinL (ls.drop (k + 1))
  else pyStrip (ls.getD k []) ++ '\n' :: (command ++ joinL (ls.drop (k + 1)))

/-- A scheduler-directive comment line, as the specification defines it:
the stripped line starts with `#` and the remaining tail after the line still
contains the directive marker `'#' + ident`. -/
def dirLineAt (ident : Str) (ls : List Str) (m : Nat) : Bool :=
  lpre ['#'] (pyStrip (ls.getD m [])) && lsub ('#' :: ident) (joinL (ls.drop (m + 1)))

/-! ## Progress printer (`src/tools/printer.py`)

The job collection the printer consumes is external to the source tree
(spec §1 excludes the job entity and collection indexing; §6 gives the
consumed contract): a job has an enumerated status, a LOCAL-or-batch type,
string tags and a name; the collection keeps status and tag indices.
Modelled from the spec: the collection's `_local` index (the `local` part of
the verbose running/local breakdown) holds the jobs currently running in
local mode, i.e. those with RUNNING status and LOCAL type.  The job set is
fixed while the printer runs; only statuses change between polls. -/

inductive Status where
  | configured | running | success | failed | cancelled
deriving DecidableEq, Repr

inductive JType where
  | loc | batch
deriving DecidableEq, Repr

structure Job where
  name : Str
  jtype : JType
  tags : List Str
  status : Status
deriving DecidableEq, Repr

def nRunning (js : List Job) : Nat :=
  (js.filter (fun j => j.status == Status.running)).length

/-- Modelled from the spec: `len(jobs._local)`, the number of jobs currently
running in local mode. -/
def nLocalRunning (js : List Job) : Nat :=
  (js.filter (fun j => j.status == Status.running && j.jtype == JType.loc)).length

def nSuccess (js : List Job) : Nat :=
  (js.filter (fun j => j.status == Status.success)).length

def nFailed (js : List Job) : Nat :=
  (js.filter (fun j => j.status == Status.failed)).length

/-- The numbers `Printer._get_print_string` interpolates into the status
line: at verbosity above 1 the running `(batch/local/all)` breakdown, with
`n_batch` the Python difference `n_running - n_local`, followed by the
`(success/fail/all)` triple with `n_all = len(jobs)`. -/
def printCounts (verbosity : Nat) (js : List Job) : List Int :=
  (if 1 < verbosity then
      [(nRunning js : Int) - (nLocalRunning js : Int),
        (nLocalRunning js : Int), (nRunning js : Int)]
    else [])
  ++ [(nSuccess js : Int), (nFailed js : Int), (js.length : Int)]

/-- The tqdm indicator positions in bar mode: the `all` bar and one bar per
tracked tag. -/
structure Bars where
  allN : Nat
  tagN : List (Str × Nat)
deriving DecidableEq, Repr

def hasTag (t : Str) (j : Job) : Bool := j.tags.contains t

def sfCount (js : List Job) : Nat :=
  (js.filter (fun j => j.status == Status.success || j.status == Status.failed)).length

def sfTagCount (t : Str) (js : List Job) : Nat :=
  (js.filter (fun j =>
    (j.status == Status.success || j.status == Status.failed) && hasTag t j)).length

def successTagCount (t : Str) (js : List Job) : Nat :=
  (js.filter (fun j => j.status == Status.success && hasTag t j)).length

/-- One bar update of `Printer._update_bars`: `n_update_jobs = n_jobs - bar.n`
(a Python integer difference) and `tqdm.update` is applied only when that
delta is positive. -/
def barStep (cur n : Nat) : Nat :=
  if (0 : Int) < (cur : Int) - (n : Int) then n + ((cur : Int) - (n : Int)).toNat else n

/-- `Printer._update_bars` against the current collection state. -/
def updateBars (js : List Job) (b : Bars) : Bars :=
  { allN := barStep (sfCount js) b.allN
    tagN := b.tagN.map (fun tn => (tn.1, barStep (sfTagCount tn.1 js) tn.2)) }

/-- Bar state after `Printer.start()`: bars are created at zero and
fast-forwarded by the number of jobs already in SUCCESS status. -/
def startBars (tags : List Str) (js : List Job) : Bars :=
  { allN := nSuccess js
    tagN := tags.map (fun t => (t, successTagCount t js)) }

/-- A later poll of the same fixed job set with externally updated statuses. -/
def setStatuses (js : List Job) (σ : List Status) : List Job :=
  js.zipWith (fun j s => { j with status := s }) σ

/-- The bar state reached from `b` by a sequence of `update()` calls, each
observing the fixed job set under a new status assignment. -/
def runUpdates (jobs : List Job) (b : Bars) (σs : List (List Status)) : Bars :=
  σs.foldl (fun b' σ => updateBars (setStatuses jobs σ) b') b

/-- The final summary counts a job as failed
(`status == Status.FAILED or status == Status.CANCELLED`). -/
def jobFailedCounted (j : Job) : Bool :=
  j.status == Status.failed || j.status == Status.cancelled

/-- Accumulator of the summary loop in `Printer._get_summary_string`. -/
structure SummaryAcc where
  sLoc : Nat
  sBatch : Nat
  fLoc : Nat
  fBatch : Nat
  failedNames : List Str
deriving DecidableEq, Repr

/-- One iteration of the summary loop over `jobs.values()`. -/
def summaryStep (acc : SummaryAcc) (j : Job) : SummaryAcc :=
  if j.status == Status.success then
    if j.jtype == JType.loc then { acc with sLoc := acc.sLoc + 1 }
    else { acc with sBatch := acc.sBatch + 1 }
  else if j.status == Status.failed || j.status == Status.cancelled then
    if j.jtype == JType.loc then
      { acc with fLoc := acc.fLoc + 1, failedNames := acc.failedNames ++ [j.name] }
    else
      { acc with fBatch := acc.fBatch + 1, failedNames := acc.failedNames ++ [j.name] }
  else acc

def summarize (js : List Job) : SummaryAcc := js.foldl summaryStep ⟨0, 0, 0, 0, []⟩

/-- `len(jobs._tags[Type.LOCAL])`: the number of local-type jobs. -/
def nLocalJobs (js : List Job) : Nat :=
  (js.filter (fun j => j.jtype == JType.loc)).length

/-- The `(batch, local, all)` triples printed by `_get_summary_string`, in
order `all`, `successful` and — only when some job failed — `failed`; each
printed `all` entry is computed as `batch + local`. -/
def printedSummary (js : List Job) : List (Nat × Nat × Nat) :=
  let a := summarize js
  let nl := nLocalJobs js
  let nb := js.length - nl
  [(nb, nl, nb + nl), (a.sBatch, a.sLoc, a.sBatch + a.sLoc)]
    ++ (if a.failedNames.isEmpty then []
        else [(a.fBatch, a.fLoc, a.fBatch + a.fLoc)])


/-! ## Sanity checks on concrete inputs -/

example : splitLines "a\nbc\n".data = ["a".data, "bc".data, []] := by decide
example : joinL (splitLines "a\nbc\n".data) = "a\nbc\n".data := by decide
example : lsub "bc".data "a\nbc\n".data = true := by decide
example : pyStrip "  #A \t".data = "#A".data := by decide

example :
    sync ⟨0, [("name".data, .vnone), ("x".data, .vint 5), ("_p".data, .vint 1)]⟩
      (some ⟨0, [("name".data, .vstr "a".data), ("x".data, .vint 7), ("_p".data, .vint 2)]⟩)
    = some ⟨0, [("name".data, .vstr "a".data), ("x".data, .vint 5), ("_p".data, .vint 1)]⟩ := by
  decide

example :
    addSingularityCommand "OPT".data "img.sif".data "#OPT a\n#OPT b\nrun\n".data
    = some ("#OPT a\n#OPT b\n".data ++ singularityCommand "img.sif".data ++ "run\n".data) := by
  decide

example :
    writeScriptText baseScriptOptionsIdentifier "echo hi\n".data (some "img.sif".data)
    = some ("#!/bin/bash\n".data ++ singularityCommand "img.sif".data ++ "echo hi\n".data) := by
  decide

example : scanIdx "O".data (splitLines "run\n#O a\n#O b\nx\n".data) = some (0, true) := by decide
example : dirLineAt "O".data (splitLines "run\n#O a\n#O b\nx\n".data) 1 = true := by decide

/-! ## Structural lemmas about lines -/

theorem splitLines_ne_nil (s : Str) : splitLines s ≠ [] := by
  induction s with
  | nil => simp [splitLines]
  | cons c cs ih =>
    simp only [splitLines]
    split
    · simp
    · cases h : splitLines cs with
      | nil => simp
      | cons l ls => simp

theorem joinL_cons (x : Str) (xs : List Str) (h : xs ≠ []) :
    joinL (x :: xs) = x ++ '\n' :: joinL xs := by
  cases xs with
  | nil => exact absurd rfl h
  | cons y ys => rfl

theorem joinL_splitLines (s : Str) : joinL (splitLines s) = s := by
  induction s with
  | nil => rfl
  | cons c cs ih =>
    by_cases hc : c = '\n'
    · subst hc
      have hsp : splitLines ('\n' :: cs) = [] :: splitLines cs := by simp [splitLines]
      rw [hsp, joinL_cons _ _ (splitLines_ne_nil cs), ih]
      rfl
    · simp only [splitLines, if_neg hc]
      cases h : splitLines cs with
      | nil => exact absurd h (splitLines_ne_nil cs)
      | cons l ls =>
        rw [h] at ih
        cases ls with
        | nil =>
          simp only [joinL] at ih ⊢
          rw [ih]
        | cons m ms =>
          rw [joinL_cons _ _ (by simp)]
          rw [joinL_cons _ _ (by simp)] at ih
          simp [← ih]

theorem splitLines_append_nl (l s : Str) (h : ∀ c ∈ l, c ≠ '\n') :
    splitLines (l ++ '\n' :: s) = l :: splitLines s := by
  induction l with
  | nil => simp [splitLines]
  | cons c cs ih =>
    have hc : c ≠ '\n' := h c (by simp)
    simp only [List.cons_append, splitLines, if_neg hc, List.append_eq]
    rw [ih (fun x hx => h x (by simp [hx]))]

/-! ## Characterisation of the guard-injection scanner -/

theorem addCommandL_eq (ident command : Str) :
    ∀ (ls : List Str) (head : Str),
      addCommandL ident command ls head
      = (scanIdx ident ls).map
          (fun kb => head ++ stripJoin (ls.take kb.1) ++ insertAt command ls kb.1 kb.2) := by
  intro ls
  induction ls with
  | nil => intro head; rfl
  | cons l0 tl ih =>
    intro head
    cases tl with
    | nil => rfl
    | cons l1 ls' =>
      simp only [addCommandL, scanIdx]
      by_cases h1 : isExecL l0 = true
      · rw [if_pos h1, if_pos h1]
        simp [stripJoin, insertAt, List.append_assoc]
      · rw [if_neg h1, if_neg h1]
        by_cases h2 : (!ident.isEmpty && !(lsub ('#' :: ident) (joinL (l1 :: ls')))) = true
        · rw [if_pos h2, if_pos h2]
          simp [stripJoin, insertAt, List.append_assoc]
        · rw [if_neg h2, if_neg h2]
          rw [ih]
          cases hs : scanIdx ident (l1 :: ls') with
          | none => simp
          | some kb =>
            obtain ⟨k, b⟩ := kb
            simp [stripJoin, insertAt, List.append_assoc]

theorem scanIdx_len (ident : Str) :
    ∀ (ls : List Str) (k : Nat) (b : Bool), scanIdx ident ls = some (k, b) → k + 1 < ls.length := by
  intro ls
  induction ls with
  | nil => intro k b h; simp [scanIdx] at h
  | cons l0 tl ih =>
    intro k b h
    cases tl with
    | nil => simp [scanIdx] at h
    | cons l1 ls' =>
      simp only [scanIdx] at h
      split at h
      · simp at h
        obtain ⟨hk, _⟩ := h
        subst hk
        simp [List.length_cons]
      · split at h
        · simp at h
          obtain ⟨hk, _⟩ := h
          subst hk
          simp [List.length_cons]
        · cases hs : scanIdx ident (l1 :: ls') with
          | none => rw [hs] at h; simp at h
          | some kb =>
            rw [hs] at h
            simp at h
            have := ih kb.1 kb.2 (by rw [hs])
            simp [List.length_cons] at this ⊢
            omega

theorem scanIdx_before (ident : Str) :
    ∀ (ls : List Str) (k : Nat) (b : Bool), scanIdx ident ls = some (k, b) →
      ∀ m, m < k → isExecL (ls.getD m []) = false := by
  intro ls
  induction ls with
  | nil => intro k b h; simp [scanIdx] at h
  | cons l0 tl ih =>
    intro k b h m hm
    cases tl with
    | nil => simp [scanIdx] at h
    | cons l1 ls' =>
      simp only [scanIdx] at h
      split at h
      · simp at h
        omega
      · split at h
        · simp at h
          omega
        · rename_i h1 h2
          cases hs : scanIdx ident (l1 :: ls') with
          | none => rw [hs] at h; simp at h
          | some kb =>
            rw [hs] at h
            simp at h
            obtain ⟨hk, hb⟩ := h
            cases m with
            | zero => simpa using Bool.not_eq_true _ ▸ (by simpa using h1)
            | succ m' =>
              have := ih kb.1 kb.2 (by rw [hs]) m' (by omega)
              simpa using this

theorem scanIdx_stop (ident : Str) :
    ∀ (ls : List Str) (k : Nat) (b : Bool), scanIdx ident ls = some (k, b) →
      (b = true → isExecL (ls.getD k []) = true) ∧
      (b = false → isExecL (ls.getD k []) = false ∧ ident ≠ [] ∧
        lsub ('#' :: ident) (joinL (ls.drop (k + 1))) = false) := by
  intro ls
  induction ls with
  | nil => intro k b h; simp [scanIdx] at h
  | cons l0 tl ih =>
    intro k b h
    cases tl with
    | nil => simp [scanIdx] at h
    | cons l1 ls' =>
      simp only [scanIdx] at h
      split at h
      · rename_i h1
        simp at h
        obtain ⟨hk, hb⟩ := h
        subst hk; subst hb
        simp [h1]
      · split at h
        · rename_i h1 h2
          simp at h
          obtain ⟨hk, hb⟩ := h
          subst hk; subst hb
          simp only [Bool.and_eq_true, Bool.not_eq_true'] at h2
          constructor
          · intro hcontr; simp at hcontr
          · intro _
            refine ⟨by simpa using h1, ?_, by simpa using h2.2⟩
            intro hnil
            rw [hnil] at h2
            simp [List.isEmpty] at h2
        · rename_i h1 h2
          cases hs : scanIdx ident (l1 :: ls') with
          | none => rw [hs] at h; simp at h
          | some kb =>
            rw [hs] at h
            simp at h
            obtain ⟨hk, hb⟩ := h
            have := ih kb.1 kb.2 (by rw [hs])
            subst hk; subst hb
            simpa using this

/-! ## Stripping preserves a leading `#!` -/

theorem rstrip_cons (x : Char) (xs : Str) :
    rstrip (x :: xs)
    = if rstrip xs = [] then (if pyIsSpace x then [] else [x]) else x :: rstrip xs := by
  have hempty : (rstrip xs = []) ↔ (xs.reverse.dropWhile pyIsSpace).isEmpty = true := by
    simp [rstrip, List.isEmpty_iff]
  by_cases h : (xs.reverse.dropWhile pyIsSpace).isEmpty = true
  · rw [if_pos (hempty.mpr h)]
    simp only [rstrip, List.reverse_cons, List.dropWhile_append, if_pos h]
    by_cases hx : pyIsSpace x = true <;> simp [List.dropWhile, hx]
  · rw [if_neg (fun hc => h (hempty.mp hc))]
    simp only [rstrip, List.reverse_cons, List.dropWhile_append, if_neg h]
    simp

theorem pyStrip_hashbang (t : Str) : ∃ r, pyStrip ('#' :: '!' :: t) = '#' :: '!' :: r := by
  have h1 : pyIsSpace '#' = false := by decide
  have h2 : pyIsSpace '!' = false := by decide
  have hd : ('#' :: '!' :: t).dropWhile pyIsSpace = '#' :: '!' :: t := by
    simp [List.dropWhile, h1]
  rw [pyStrip, hd, rstrip_cons, rstrip_cons]
  by_cases h : rstrip t = []
  · rw [if_pos h]
    simp [h1, h2]
  · rw [if_neg h]
    simp [h1]

theorem splitLines_cons_ne (c : Char) (hc : c ≠ '\n') (cs : Str) :
    splitLines (c :: cs) = (c :: (splitLines cs).headD []) :: (splitLines cs).tail := by
  simp only [splitLines, if_neg hc]
  cases h : splitLines cs with
  | nil => exact absurd h (splitLines_ne_nil cs)
  | cons l ls => simp

theorem lpre_hashbang_iff (s : Str) : lpre "#!".data s = true ↔ ∃ t, s = '#' :: '!' :: t := by
  have hdata : "#!".data = ['#', '!'] := rfl
  rw [hdata]
  cases s with
  | nil => simp [lpre]
  | cons a s' =>
    cases s' with
    | nil => simp [lpre]
    | cons b t =>
      simp only [lpre, Bool.and_eq_true, beq_iff_eq]
      constructor
      · rintro ⟨ha, hb, _⟩
        exact ⟨t, by rw [← ha, ← hb]⟩
      · rintro ⟨t', ht⟩
        cases ht
        simp [lpre]

theorem lpre_hashbang_append (r z : Str) : lpre "#!".data (('#' :: '!' :: r) ++ z) = true := by
  rw [lpre_hashbang_iff]
  exact ⟨r ++ z, by simp⟩

theorem splitLines_hashbang (t : Str) :
    splitLines ('#' :: '!' :: t)
    = ('#' :: '!' :: (splitLines t).headD []) :: (splitLines t).tail := by
  rw [splitLines_cons_ne '#' (by decide) ('!' :: t), splitLines_cons_ne '!' (by decide) t]
  simp

theorem addCommandL_hashbang (ident c t out : Str)
    (h : addCommandL ident c (splitLines ('#' :: '!' :: t)) [] = some out) :
    lpre "#!".data out = true := by
  obtain ⟨r, hr⟩ := pyStrip_hashbang ((splitLines t).headD [])
  rw [addCommandL_eq, splitLines_hashbang] at h
  cases hs : scanIdx ident (('#' :: '!' :: (splitLines t).headD []) :: (splitLines t).tail) with
  | none => rw [hs] at h; simp at h
  | some kb =>
    obtain ⟨k, b⟩ := kb
    rw [hs] at h
    simp only [Option.map_some', Option.some_inj, List.nil_append] at h
    cases k with
    | zero =>
      cases b with
      | true =>
        have hstop := (scanIdx_stop ident _ _ _ hs).1 rfl
        simp only [List.getD_cons_zero] at hstop
        rw [isExecL, hr] at hstop
        simp [lpre] at hstop
      | false =>
        simp only [List.take_zero, stripJoin, List.map_nil, List.flatten_nil,
          List.nil_append, insertAt, Bool.false_eq_true, if_false, List.getD_cons_zero] at h
        rw [hr] at h
        rw [← h, lpre_hashbang_iff]
        exact ⟨_, rfl⟩
    | succ k' =>
      simp only [List.take_succ_cons, stripJoin, List.map_cons, List.flatten_cons] at h
      rw [hr] at h
      rw [← h]
      simp only [List.append_assoc, List.cons_append]
      rw [lpre_hashbang_iff]
      exact ⟨_, rfl⟩

/-- C8: every script text produced by `write_script` begins with an
interpreter-directive line: when the input does not already start with `#!`,
the default `#!/bin/bash` line is prepended before injection and writing,
and the produced text always starts with `#!`. -/
theorem writeScript_shebang :
    (∀ (ident rs : Str) (img : Option Str) (out : Str),
        writeScriptText ident rs img = some out → lpre "#!".data out = true)
    ∧ (∀ ident rs : Str, lpre "#!".data rs = false →
        writeScriptText ident rs none = some ("#!/bin/bash\n".data ++ rs)) := by
  have hbash : "#!/bin/bash\n".data = '#' :: '!' :: "/bin/bash\n".data := rfl
  constructor
  · intro ident rs img out h
    have hsb : ∃ t, (if lpre "#!".data rs then rs
        else "#!/bin/bash\n".data ++ rs) = '#' :: '!' :: t := by
      rw [← lpre_hashbang_iff]
      by_cases hp : lpre "#!".data rs = true
      · simp [hp]
      · simp only [hp, if_false, Bool.false_eq_true]
        simp [lpre]
    obtain ⟨t, ht⟩ := hsb
    cases img with
    | none =>
      simp only [writeScriptText] at h
      rw [ht] at h
      simp only [Option.some_inj] at h
      rw [← h, lpre_hashbang_iff]
      exact ⟨t, rfl⟩
    | some im =>
      simp only [writeScriptText, addSingularityCommand] at h
      rw [ht] at h
      exact addCommandL_hashbang ident _ t out h
  · intro ident rs hneg
    simp only [writeScriptText, hneg, Bool.false_eq_true, if_false]

/-- Witness for `writeScript_shebang` at a concrete script and image. -/
theorem writeScript_shebang_witness :
    lpre "#!".data ("#!/bin/bash\n".data ++ singularityCommand "img.sif".data
      ++ "echo hi\n".data) = true
    ∧ writeScriptText "OPT".data "echo hi\n".data none
        = some ("#!/bin/bash\n".data ++ "echo hi\n".data) :=
  ⟨writeScript_shebang.1 "OPT".data "echo hi\n".data (some "img.sif".data) _ (by decide),
   writeScript_shebang.2 "OPT".data "echo hi\n".data (by decide)⟩

/-! ## Claim C1: position of the injected guard block -/

/-- C1 (amended): whenever the injection scanner succeeds, the guard block is
inserted exactly once: the output is the stripped scanned prefix, then (branch
`true`) the block immediately before the first non-blank non-comment line, or
(branch `false`) the block immediately after the last kept blank-or-comment
line, whose tail no longer holds the directive marker.  Every line before the
stop index is blank or comment, and every scheduler-directive comment line
up to the stop index lies strictly before the insertion point.  Moreover with
zero directive lines and an executable first line, the block lands
immediately after the prepended default `#!/bin/bash` line and before that
first executable line.  (The claim's clause "strictly after the *last*
scheduler-directive comment line" is amended to "strictly after every
scheduler-directive comment line up to the insertion point": a directive
comment line may occur after the first executable line, see the
counterexample.) -/
theorem guard_insertion_position :
    (∀ (ident c : Str) (ls : List Str) (out : Str),
        addCommandL ident c ls [] = some out →
        ∃ k b, scanIdx ident ls = some (k, b) ∧ k + 1 < ls.length ∧
          out = stripJoin (ls.take k) ++ insertAt c ls k b ∧
          (∀ m, m < k → isExecL (ls.getD m []) = false) ∧
          (b = true → isExecL (ls.getD k []) = true) ∧
          (b = false → isExecL (ls.getD k []) = false ∧ ident ≠ [] ∧
            lsub ('#' :: ident) (joinL (ls.drop (k + 1))) = false) ∧
          (∀ m, m ≤ k → dirLineAt ident ls m = true → m < k))
    ∧ (∀ (ident c s out : Str),
        isExecL ((splitLines s).headD []) = true →
        addCommandL ident c (splitLines ("#!/bin/bash\n".data ++ s)) [] = some out →
        ∃ r, out = "#!/bin/bash\n".data ++ c ++ r ∧
          (r = s ∨ r = pyStrip ((splitLines s).headD [])
            ++ '\n' :: joinL ((splitLines s).drop 1))) := by
  constructor
  · intro ident c ls out h
    rw [addCommandL_eq] at h
    cases hsc : scanIdx ident ls with
    | none => rw [hsc] at h; simp at h
    | some kb =>
      obtain ⟨k, b⟩ := kb
      rw [hsc] at h
      simp only [Option.map_some', Option.some_inj, List.nil_append] at h
      refine ⟨k, b, rfl, scanIdx_len ident ls k b hsc, h.symm,
        scanIdx_before ident ls k b hsc, (scanIdx_stop ident ls k b hsc).1,
        (scanIdx_stop ident ls k b hsc).2, ?_⟩
      intro m hm hd
      rcases Nat.lt_or_ge m k with hlt | hge
      · exact hlt
      · exfalso
        have hmk : m = k := Nat.le_antisymm hm hge
        subst hmk
        rw [dirLineAt] at hd
        simp only [Bool.and_eq_true] at hd
        cases b with
        | true =>
          have hstop := (scanIdx_stop ident ls m true hsc).1 rfl
          rw [isExecL] at hstop
          simp only [Bool.and_eq_true, Bool.not_eq_true'] at hstop
          rw [hstop.2] at hd
          exact absurd hd.1 (by simp)
        | false =>
          have hstop := (scanIdx_stop ident ls m false hsc).2 rfl
          rw [hstop.2.2] at hd
          exact absurd hd.2 (by simp)
  · intro ident c s out hexec h
    have hsplit : splitLines ("#!/bin/bash\n".data ++ s)
        = "#!/bin/bash".data :: splitLines s := by
      have h1 : "#!/bin/bash\n".data ++ s = "#!/bin/bash".data ++ '\n' :: s := rfl
      rw [h1, splitLines_append_nl _ _ (by decide)]
    rw [hsplit] at h
    cases hls : splitLines s with
    | nil => exact absurd hls (splitLines_ne_nil s)
    | cons l0 ls' =>
      rw [hls] at h
      have hB : isExecL "#!/bin/bash".data = false := by decide
      have hBs : pyStrip "#!/bin/bash".data = "#!/bin/bash".data := by decide
      rw [hls] at hexec
      simp only [List.headD_cons] at hexec
      have hjoin : joinL (l0 :: ls') = s := by rw [← hls, joinL_splitLines]
      simp only [addCommandL, hB, Bool.false_eq_true, if_false] at h
      by_cases hcond : (!ident.isEmpty
          && !(lsub ('#' :: ident) (joinL (l0 :: ls')))) = true
      · rw [if_pos hcond] at h
        simp only [Option.some_inj, List.nil_append] at h
        refine ⟨s, ?_, Or.inl rfl⟩
        rw [← h, hBs, hjoin]
        rfl
      · rw [if_neg hcond] at h
        cases ls' with
        | nil => simp [addCommandL] at h
        | cons l1 ls'' =>
          simp only [addCommandL, hexec, if_true, Option.some_inj,
            List.nil_append] at h
          refine ⟨pyStrip l0 ++ '\n' :: joinL (l1 :: ls''), ?_, Or.inr ?_⟩
          · rw [← h, hBs]
            have hb2 : "#!/bin/bash\n".data = "#!/bin/bash".data ++ ['\n'] := rfl
            rw [hb2]
            simp [List.append_assoc]
          · simp

/-- Witness for `guard_insertion_position` at concrete scripts. -/
theorem guard_insertion_position_witness :
    (∃ k b, scanIdx "OPT".data (splitLines "#OPT a\nrun\n".data) = some (k, b) ∧
      k + 1 < (splitLines "#OPT a\nrun\n".data).length ∧
      "#OPT a\nCMD\nrun\n".data
        = stripJoin ((splitLines "#OPT a\nrun\n".data).take k)
          ++ insertAt "CMD\n".data (splitLines "#OPT a\nrun\n".data) k b ∧
      (∀ m, m < k → isExecL ((splitLines "#OPT a\nrun\n".data).getD m []) = false) ∧
      (b = true → isExecL ((splitLines "#OPT a\nrun\n".data).getD k []) = true) ∧
      (b = false → isExecL ((splitLines "#OPT a\nrun\n".data).getD k []) = false ∧
        "OPT".data ≠ [] ∧
        lsub ('#' :: "OPT".data)
          (joinL ((splitLines "#OPT a\nrun\n".data).drop (k + 1))) = false) ∧
      (∀ m, m ≤ k →
        dirLineAt "OPT".data (splitLines "#OPT a\nrun\n".data) m = true → m < k))
    ∧ (∃ r, "#!/bin/bash\nCMD\necho hi\n".data
          = "#!/bin/bash\n".data ++ "CMD\n".data ++ r ∧
        (r = "echo hi\n".data ∨ r = pyStrip ((splitLines "echo hi\n".data).headD [])
          ++ '\n' :: joinL ((splitLines "echo hi\n".data).drop 1))) :=
  ⟨guard_insertion_position.1 "OPT".data "CMD\n".data (splitLines "#OPT a\nrun\n".data)
      "#OPT a\nCMD\nrun\n".data (by decide),
   guard_insertion_position.2 "OPT".data "CMD\n".data "echo hi\n".data
      "#!/bin/bash\nCMD\necho hi\n".data (by decide) (by decide)⟩

/-- C1 is false as stated: on `"run\n#O a\n#O b\nx\n"` with options identifier
`"O"`, the guard block is inserted at the very start of the script (the
scanner stops at line 0, before the executable line `run`), yet line 1,
`#O a`, is a scheduler-directive comment line in the claim's sense (it starts
with `#` and the remaining tail still holds the marker `#O`): the inserted
block is not strictly after the last scheduler-directive comment line. -/
theorem guard_insertion_position_cex :
    addSingularityCommand "O".data "img".data "run\n#O a\n#O b\nx\n".data
      = some (singularityCommand "img".data ++ "run\n#O a\n#O b\nx\n".data)
    ∧ scanIdx "O".data (splitLines "run\n#O a\n#O b\nx\n".data) = some (0, true)
    ∧ dirLineAt "O".data (splitLines "run\n#O a\n#O b\nx\n".data) 1 = true :=
  ⟨by decide, by decide, by decide⟩

/-! ## Claim C9: treatment of the scanned lines -/

/-- C9 (amended): every line scanned before the insertion point is kept in
order, but as its `strip()`-ed form followed by a newline — not byte-for-byte:
leading and trailing whitespace of every scanned line is removed.  The output
is exactly the stripped scanned lines, then the guard block, then the
untouched remainder. -/
theorem scanned_lines_stripped :
    ∀ (ident c : Str) (ls : List Str) (out : Str),
      addCommandL ident c ls [] = some out →
      ∃ k b, scanIdx ident ls = some (k, b) ∧
        out = stripJoin (ls.take (if b then k else k + 1)) ++ c
          ++ (if b then pyStrip (ls.getD k []) ++ '\n' :: joinL (ls.drop (k + 1))
              else joinL (ls.drop (k + 1))) := by
  intro ident c ls out h
  rw [addCommandL_eq] at h
  cases hsc : scanIdx ident ls with
  | none => rw [hsc] at h; simp at h
  | some kb =>
    obtain ⟨k, b⟩ := kb
    rw [hsc] at h
    simp only [Option.map_some', Option.some_inj, List.nil_append] at h
    have hk : k < ls.length := by
      have := scanIdx_len ident ls k b hsc
      omega
    refine ⟨k, b, rfl, ?_⟩
    rw [← h, insertAt]
    cases b with
    | true => simp [List.append_assoc]
    | false =>
      have htake : ls.take (k + 1) = ls.take k ++ [ls.getD k []] := by
        rw [List.take_succ, List.getElem?_eq_getElem hk, List.getD_eq_getElem ls [] hk]
        rfl
      simp only [Bool.false_eq_true, if_false, htake, stripJoin, List.map_append,
        List.flatten_append, List.map_cons, List.flatten_cons, List.map_nil,
        List.flatten_nil, List.append_nil, List.append_assoc, List.cons_append,
        List.nil_append]

/-- Witness for `scanned_lines_stripped`: on `" #c \nrun\n"` with an empty
options identifier the kept comment line is stripped to `#c`. -/
theorem scanned_lines_stripped_witness :
    ∃ k b, scanIdx [] (splitLines " #c \nrun\n".data) = some (k, b) ∧
      "#c\nCMD\nrun\n".data
        = stripJoin ((splitLines " #c \nrun\n".data).take (if b then k else k + 1))
          ++ "CMD\n".data
          ++ (if b then pyStrip ((splitLines " #c \nrun\n".data).getD k [])
                ++ '\n' :: joinL ((splitLines " #c \nrun\n".data).drop (k + 1))
              else joinL ((splitLines " #c \nrun\n".data).drop (k + 1))) :=
  scanned_lines_stripped [] "CMD\n".data (splitLines " #c \nrun\n".data)
    "#c\nCMD\nrun\n".data (by decide)

/-- C9 is false as stated: injecting the guard into `" #c \nrun\n"` (empty
options identifier, image `img.sif`) yields an output whose first kept line
is `#c`, while the input line was `" #c "`; the original line, with its
leading and trailing whitespace, occurs nowhere in the output. -/
theorem scanned_lines_stripped_cex :
    addSingularityCommand [] "img.sif".data " #c \nrun\n".data
      = some ("#c\n".data ++ singularityCommand "img.sif".data ++ "run\n".data)
    ∧ lsub " #c ".data ("#c\n".data ++ singularityCommand "img.sif".data
        ++ "run\n".data) = false :=
  ⟨by decide, by decide⟩

/-! ## Claim C10: all-comment scripts with the Base identifier -/

/-- C10: with the Base default options identifier (the empty string), guard
injection on a script all of whose lines are blank or comment lines never
finds an insertion point: the scanner recurses to the final newline-free
piece, where `tail.split('\n', 1)` raises an unhandled `ValueError`
(modelled by the `none` result). -/
theorem base_all_comments_raises :
    ∀ (img s : Str), (∀ l ∈ splitLines s, isExecL l = false) →
      addSingularityCommand baseScriptOptionsIdentifier img s = none := by
  have main : ∀ (c : Str) (ls : List Str) (head : Str),
      (∀ l ∈ ls, isExecL l = false) → addCommandL [] c ls head = none := by
    intro c ls
    induction ls with
    | nil => intro head _; rfl
    | cons l0 tl ih =>
      intro head hall
      cases tl with
      | nil => rfl
      | cons l1 ls' =>
        have h0 : isExecL l0 = false := hall l0 (by simp)
        have hcond : (!List.isEmpty ([] : Str)
            && !(lsub ('#' :: ([] : Str)) (joinL (l1 :: ls')))) = false := by
          simp [List.isEmpty]
        simp only [addCommandL, h0, Bool.false_eq_true, if_false, hcond]
        exact ih _ (fun l hl => hall l (by simp [hl]))
  intro img s hall
  exact main (singularityCommand img) (splitLines s) [] hall

/-- Witness for `base_all_comments_raises` on a concrete all-comment script. -/
theorem base_all_comments_raises_witness :
    (∀ l ∈ splitLines "#a\n\n#b\n".data, isExecL l = false) ∧
    addSingularityCommand baseScriptOptionsIdentifier "img.sif".data "#a\n\n#b\n".data
      = none :=
  ⟨by decide, base_all_comments_raises "img.sif".data "#a\n\n#b\n".data (by decide)⟩

/-! ## Claims C2, C6, C7: `sync` semantics -/

theorem syncFields_get (other : List (Str × PyVal)) :
    ∀ (fs fs' : List (Str × PyVal)), syncFields other fs = some fs' →
      fs'.length = fs.length ∧
      ∀ (i : Nat) (k : Str) (v : PyVal), fs[i]? = some (k, v) →
        (isPriv k = true → fs'[i]? = some (k, v)) ∧
        (isPriv k = false → ∃ ov, lookupField other k = some ov ∧
          fs'[i]? = some (k, pyOr v ov)) := by
  intro fs
  induction fs with
  | nil =>
    intro fs' h
    simp only [syncFields, Option.some_inj] at h
    subst h
    exact ⟨rfl, by intro i k v hi; simp at hi⟩
  | cons kv rest ih =>
    obtain ⟨k0, v0⟩ := kv
    intro fs' h
    simp only [syncFields] at h
    by_cases hp : isPriv k0 = true
    · rw [if_pos hp] at h
      cases hr : syncFields other rest with
      | none => rw [hr] at h; simp at h
      | some rest' =>
        rw [hr] at h
        simp only [Option.map_some', Option.some_inj] at h
        subst h
        obtain ⟨hlen, hidx⟩ := ih rest' hr
        refine ⟨by simp [hlen], ?_⟩
        intro i k v hi
        cases i with
        | zero =>
          simp only [List.getElem?_cons_zero, Option.some_inj, Prod.mk.injEq] at hi
          obtain ⟨hk, hv⟩ := hi
          subst hk; subst hv
          exact ⟨fun _ => by simp, fun hnp => absurd hp (by simp [hnp])⟩
        | succ i' =>
          simpa using hidx i' k v (by simpa using hi)
    · rw [if_neg hp] at h
      cases hl : lookupField other k0 with
      | none => rw [hl] at h; simp at h
      | some ov =>
        rw [hl] at h
        cases hr : syncFields other rest with
        | none => rw [hr] at h; simp at h
        | some rest' =>
          rw [hr] at h
          simp only [Option.map_some', Option.some_inj] at h
          subst h
          obtain ⟨hlen, hidx⟩ := ih rest' hr
          refine ⟨by simp [hlen], ?_⟩
          intro i k v hi
          cases i with
          | zero =>
            simp only [List.getElem?_cons_zero, Option.some_inj, Prod.mk.injEq] at hi
            obtain ⟨hk, hv⟩ := hi
            subst hk; subst hv
            refine ⟨fun hpp => absurd hpp (by simp [hp]), fun _ => ⟨ov, hl, by simp⟩⟩
          | succ i' =>
            simpa using hidx i' k v (by simpa using hi)

/-- C2: after a completed `sync` with a backend of the same concrete kind,
every non-private field of the receiver equals its prior value when that
value was truthy and the other's value otherwise (`self[key] or config[key]`);
in particular every field that was truthy before the call is unchanged. -/
theorem sync_fills_only_falsy :
    ∀ (self other s' : Backend), other.cls = self.cls →
      sync self (some other) = some s' →
      s'.cls = self.cls ∧ s'.fields.length = self.fields.length ∧
      ∀ (i : Nat) (k : Str) (v : PyVal), self.fields[i]? = some (k, v) → isPriv k = false →
        ∃ ov, lookupField other.fields k = some ov ∧
          s'.fields[i]? = some (k, pyOr v ov) ∧
          (v.truthy = true → s'.fields[i]? = some (k, v)) := by
  intro self other s' hcls h
  simp only [sync] at h
  rw [if_neg (by simp [hcls])] at h
  cases hsf : syncFields other.fields self.fields with
  | none => rw [hsf] at h; simp at h
  | some fs' =>
    rw [hsf] at h
    simp only [Option.map_some', Option.some_inj] at h
    obtain ⟨hlen, hidx⟩ := syncFields_get other.fields self.fields fs' hsf
    subst h
    refine ⟨rfl, hlen, ?_⟩
    intro i k v hi hnp
    obtain ⟨ov, hov, hval⟩ := (hidx i k v hi).2 hnp
    refine ⟨ov, hov, hval, ?_⟩
    intro ht
    rw [hval]
    simp [pyOr, ht]

/-- Witness for `sync_fills_only_falsy` at concrete backends. -/
theorem sync_fills_only_falsy_witness :
    (⟨0, [("name".data, PyVal.vstr "a".data), ("x".data, PyVal.vint 5)]⟩ : Backend).cls
      = (⟨0, [("name".data, PyVal.vnone), ("x".data, PyVal.vint 5)]⟩ : Backend).cls ∧
    (⟨0, [("name".data, PyVal.vstr "a".data), ("x".data, PyVal.vint 5)]⟩ : Backend).fields.length
      = (⟨0, [("name".data, PyVal.vnone), ("x".data, PyVal.vint 5)]⟩ : Backend).fields.length ∧
    ∀ (i : Nat) (k : Str) (v : PyVal),
      (⟨0, [("name".data, PyVal.vnone), ("x".data, PyVal.vint 5)]⟩ : Backend).fields[i]?
        = some (k, v) → isPriv k = false →
      ∃ ov, lookupField (⟨0, [("name".data, PyVal.vstr "a".data),
          ("x".data, PyVal.vint 7)]⟩ : Backend).fields k = some ov ∧
        (⟨0, [("name".data, PyVal.vstr "a".data), ("x".data, PyVal.vint 5)]⟩
            : Backend).fields[i]? = some (k, pyOr v ov) ∧
        (v.truthy = true →
          (⟨0, [("name".data, PyVal.vstr "a".data), ("x".data, PyVal.vint 5)]⟩
              : Backend).fields[i]? = some (k, v)) :=
  sync_fills_only_falsy
    ⟨0, [("name".data, PyVal.vnone), ("x".data, PyVal.vint 5)]⟩
    ⟨0, [("name".data, PyVal.vstr "a".data), ("x".data, PyVal.vint 7)]⟩
    ⟨0, [("name".data, PyVal.vstr "a".data), ("x".data, PyVal.vint 5)]⟩
    rfl (by decide)

/-- C6: when the other backend's concrete kind differs from the receiver's,
`sync` is a logged no-op: the receiver is returned byte-for-byte unchanged
and no exception is raised. -/
theorem sync_kind_mismatch :
    ∀ (self other : Backend), other.cls ≠ self.cls →
      sync self (some other) = some self := by
  intro self other h
  simp [sync, h]

/-- Witness for `sync_kind_mismatch` at concrete backends of distinct kinds. -/
theorem sync_kind_mismatch_witness :
    sync ⟨0, [("x".data, PyVal.vnone)]⟩ (some ⟨1, [("y".data, PyVal.vint 9)]⟩)
      = some ⟨0, [("x".data, PyVal.vnone)]⟩ :=
  sync_kind_mismatch ⟨0, [("x".data, PyVal.vnone)]⟩ ⟨1, [("y".data, PyVal.vint 9)]⟩
    (by decide)

theorem syncFields_idem (other : List (Str × PyVal)) :
    ∀ fs fs', syncFields other fs = some fs' → syncFields other fs' = some fs' := by
  intro fs
  induction fs with
  | nil =>
    intro fs' h
    simp only [syncFields, Option.some_inj] at h
    subst h
    rfl
  | cons kv rest ih =>
    obtain ⟨k0, v0⟩ := kv
    intro fs' h
    simp only [syncFields] at h
    by_cases hp : isPriv k0 = true
    · rw [if_pos hp] at h
      cases hr : syncFields other rest with
      | none => rw [hr] at h; simp at h
      | some rest' =>
        rw [hr] at h
        simp only [Option.map_some', Option.some_inj] at h
        subst h
        simp only [syncFields, if_pos hp, ih rest' hr, Option.map_some']
    · rw [if_neg hp] at h
      cases hl : lookupField other k0 with
      | none => rw [hl] at h; simp at h
      | some ov =>
        rw [hl] at h
        cases hr : syncFields other rest with
        | none => rw [hr] at h; simp at h
        | some rest' =>
          rw [hr] at h
          simp only [Option.map_some', Option.some_inj] at h
          subst h
          have hidem : pyOr (pyOr v0 ov) ov = pyOr v0 ov := by
            by_cases ht : v0.truthy = true
            · simp [pyOr, ht]
            · simp only [pyOr, ht, Bool.false_eq_true, if_false]
              by_cases ho : ov.truthy = true <;> simp [ho]
          simp only [syncFields, if_neg hp, hl, ih rest' hr, Option.map_some', hidem]

/-- C7: `sync` is idempotent: a second call with the same other backend (or
with `None`) leaves the receiver in the state the first completed call
produced. -/
theorem sync_idempotent :
    ∀ (self : Backend) (config : Option Backend) (s1 : Backend),
      sync self config = some s1 → sync s1 config = some s1 := by
  intro self config s1 h
  cases config with
  | none =>
    simp only [sync, Option.some_inj] at h
    subst h
    rfl
  | some c =>
    simp only [sync] at h ⊢
    by_cases hc : c.cls = self.cls
    · rw [if_neg (by simp [hc])] at h
      cases hsf : syncFields c.fields self.fields with
      | none => rw [hsf] at h; simp at h
      | some fs' =>
        rw [hsf] at h
        simp only [Option.map_some', Option.some_inj] at h
        subst h
        rw [if_neg (by simp [hc])]
        rw [syncFields_idem c.fields self.fields fs' hsf]
        rfl
    · rw [if_pos hc] at h
      simp only [Option.some_inj] at h
      subst h
      rw [if_pos hc]

/-- Witness for `sync_idempotent` at concrete backends. -/
theorem sync_idempotent_witness :
    sync ⟨0, [("x".data, PyVal.vint 3)]⟩ (some ⟨0, [("x".data, PyVal.vint 3)]⟩)
      = some ⟨0, [("x".data, PyVal.vint 3)]⟩ :=
  sync_idempotent ⟨0, [("x".data, PyVal.vnone)]⟩ (some ⟨0, [("x".data, PyVal.vint 3)]⟩)
    ⟨0, [("x".data, PyVal.vint 3)]⟩ (by decide)

/-! ## Claim C4: bar positions never decrease -/

theorem barStep_le (cur n : Nat) : n ≤ barStep cur n := by
  rw [barStep]
  split
  · omega
  · exact Nat.le_refl n

theorem barStep_clamp (cur n : Nat) (h : cur < n) : barStep cur n = n := by
  rw [barStep, if_neg]
  omega

theorem updateBars_mono (js : List Job) (b : Bars) :
    b.allN ≤ (updateBars js b).allN ∧
    ∀ (i : Nat) (t : Str) (n : Nat), b.tagN[i]? = some (t, n) →
      ∃ n', (updateBars js b).tagN[i]? = some (t, n') ∧ n ≤ n' := by
  refine ⟨barStep_le _ _, ?_⟩
  intro i t n hi
  refine ⟨barStep (sfTagCount t js) n, ?_, barStep_le _ _⟩
  simp only [updateBars, List.getElem?_map, hi, Option.map_some']

/-- C4: in bar mode every displayed indicator position — the aggregate and
every tracked tag — is monotonically non-decreasing across any sequence of
`update()` calls, and an update whose recomputed success+failed count lies
below the indicator's current position leaves the indicator unchanged. -/
theorem bars_monotone :
    (∀ (jobs : List Job) (b : Bars) (σs : List (List Status)),
      b.allN ≤ (runUpdates jobs b σs).allN ∧
      ∀ (i : Nat) (t : Str) (n : Nat), b.tagN[i]? = some (t, n) →
        ∃ n', (runUpdates jobs b σs).tagN[i]? = some (t, n') ∧ n ≤ n')
    ∧ (∀ cur n : Nat, cur < n → barStep cur n = n) := by
  constructor
  · intro jobs b σs
    induction σs generalizing b with
    | nil => exact ⟨Nat.le_refl _, fun i t n hi => ⟨n, hi, Nat.le_refl n⟩⟩
    | cons σ σs ih =>
      have hstep := updateBars_mono (setStatuses jobs σ) b
      have hrest := ih (updateBars (setStatuses jobs σ) b)
      refine ⟨Nat.le_trans hstep.1 hrest.1, ?_⟩
      intro i t n hi
      obtain ⟨n1, hn1, hle1⟩ := hstep.2 i t n hi
      obtain ⟨n2, hn2, hle2⟩ := hrest.2 i t n1 hn1
      exact ⟨n2, hn2, Nat.le_trans hle1 hle2⟩
  · exact barStep_clamp

/-- Witness for `bars_monotone` at a concrete job set and update sequence. -/
theorem bars_monotone_witness :
    ((startBars [['a']] [⟨"j1".data, JType.loc, [['a']], Status.running⟩]).allN
      ≤ (runUpdates [⟨"j1".data, JType.loc, [['a']], Status.running⟩]
          (startBars [['a']] [⟨"j1".data, JType.loc, [['a']], Status.running⟩])
          [[Status.success], [Status.running]]).allN)
    ∧ barStep 0 3 = 3 :=
  ⟨(bars_monotone.1 [⟨"j1".data, JType.loc, [['a']], Status.running⟩]
      (startBars [['a']] [⟨"j1".data, JType.loc, [['a']], Status.running⟩])
      [[Status.success], [Status.running]]).1,
   bars_monotone.2 0 3 (by decide)⟩

/-! ## Claim C3: displayed counts are non-negative and bounded -/

theorem length_filter_and_le (p q : Job → Bool) (js : List Job) :
    (js.filter (fun j => p j && q j)).length ≤ (js.filter p).length := by
  induction js with
  | nil => simp
  | cons j tl ih =>
    by_cases hp : p j = true
    · by_cases hq : q j = true
      · simp [List.filter_cons, hp, hq]
        omega
      · simp [List.filter_cons, hp, hq]
        omega
    · simp [List.filter_cons, hp]
      simpa using ih

theorem barStep_bound (cur n L : Nat) (hc : cur ≤ L) (hn : n ≤ L) : barStep cur n ≤ L := by
  rw [barStep]
  split <;> omega

theorem setStatuses_length_le (jobs : List Job) (σ : List Status) :
    (setStatuses jobs σ).length ≤ jobs.length := by
  simp only [setStatuses, List.length_zipWith]
  omega

theorem runUpdates_allN_bound (jobs : List Job) (σs : List (List Status)) :
    ∀ b : Bars, b.allN ≤ jobs.length → (runUpdates jobs b σs).allN ≤ jobs.length := by
  induction σs with
  | nil => intro b h; exact h
  | cons σ σs ih =>
    intro b h
    apply ih
    have hcur : sfCount (setStatuses jobs σ) ≤ jobs.length :=
      le_trans (List.length_filter_le _ _) (setStatuses_length_le jobs σ)
    exact barStep_bound _ _ _ hcur h

/-- C3: every count the printer shows is non-negative — in particular the
verbose `n_batch = n_running - n_local` difference, since the locally running
jobs are among the running jobs — and the aggregate `all` bucket never
exceeds the total job count: in line mode the `all` slots are `len(jobs)`
and `n_running ≤ len(jobs)`, and in bar mode the `all` indicator position
stays at most the total job count across `start()` and any sequence of
`update()` calls. -/
theorem progress_counts_bounds :
    (∀ (verbosity : Nat) (js : List Job), ∀ x ∈ printCounts verbosity js, 0 ≤ x)
    ∧ (∀ js : List Job, nRunning js ≤ js.length)
    ∧ (∀ (jobs : List Job) (tags : List Str) (σs : List (List Status)),
        (runUpdates jobs (startBars tags jobs) σs).allN ≤ jobs.length) := by
  refine ⟨?_, ?_, ?_⟩
  · intro verbosity js x hx
    have hloc : nLocalRunning js ≤ nRunning js :=
      length_filter_and_le (fun j => j.status == Status.running)
        (fun j => j.jtype == JType.loc) js
    by_cases hv : 1 < verbosity
    · simp only [printCounts, hv, if_true, List.cons_append, List.nil_append,
        List.mem_cons, List.not_mem_nil, or_false] at hx
      rcases hx with h | h | h | h | h | h <;> subst h <;>
        first
          | (apply Int.sub_nonneg.mpr; exact_mod_cast hloc)
          | positivity
    · simp only [printCounts, hv, if_false, List.nil_append, List.mem_cons,
        List.not_mem_nil, or_false] at hx
      rcases hx with h | h | h <;> subst h <;> positivity
  · intro js
    exact List.length_filter_le _ _
  · intro jobs tags σs
    exact runUpdates_allN_bound jobs σs (startBars tags jobs)
      (List.length_filter_le _ _)

/-- Witness for `progress_counts_bounds` at a concrete one-job collection. -/
theorem progress_counts_bounds_witness :
    (0 ≤ (nRunning [⟨"j".data, JType.batch, [], Status.running⟩] : Int)
        - (nLocalRunning [⟨"j".data, JType.batch, [], Status.running⟩] : Int))
    ∧ (runUpdates [⟨"j".data, JType.batch, [], Status.running⟩]
        (startBars [] [⟨"j".data, JType.batch, [], Status.running⟩])
        [[Status.success]]).allN
      ≤ ([⟨"j".data, JType.batch, [], Status.running⟩] : List Job).length :=
  ⟨progress_counts_bounds.1 2 [⟨"j".data, JType.batch, [], Status.running⟩] _ (by decide),
   progress_counts_bounds.2.2 [⟨"j".data, JType.batch, [], Status.running⟩] []
     [[Status.success]]⟩

/-! ## Claim C5: final summary invariants -/

theorem summarize_foldl :
    ∀ (js : List Job) (acc : SummaryAcc),
      js.foldl summaryStep acc =
        ⟨acc.sLoc + (js.filter (fun j =>
            j.status == Status.success && j.jtype == JType.loc)).length,
         acc.sBatch + (js.filter (fun j =>
            j.status == Status.success && !(j.jtype == JType.loc))).length,
         acc.fLoc + (js.filter (fun j =>
            jobFailedCounted j && j.jtype == JType.loc)).length,
         acc.fBatch + (js.filter (fun j =>
            jobFailedCounted j && !(j.jtype == JType.loc))).length,
         acc.failedNames ++ (js.filter jobFailedCounted).map Job.name⟩ := by
  intro js
  induction js with
  | nil => intro acc; simp
  | cons j tl ih =>
    intro acc
    rw [List.foldl_cons, ih]
    cases hs : j.status <;> cases ht : j.jtype <;>
      simp [summaryStep, jobFailedCounted, List.filter_cons, hs, ht,
        SummaryAcc.mk.injEq, List.append_assoc] <;>
      omega

theorem length_filter_split (p q : Job → Bool) (js : List Job) :
    (js.filter (fun j => p j && q j)).length
      + (js.filter (fun j => p j && !(q j))).length
      = (js.filter p).length := by
  induction js with
  | nil => simp
  | cons j tl ih =>
    by_cases hp : p j = true
    · by_cases hq : q j = true
      · simp [List.filter_cons, hp, hq]
        omega
      · simp [List.filter_cons, hp, hq]
        omega
    · simp [List.filter_cons, hp]
      omega

theorem length_filter_disjoint (p q : Job → Bool) (js : List Job)
    (h : ∀ j, ¬(p j = true ∧ q j = true)) :
    (js.filter p).length + (js.filter q).length ≤ js.length := by
  induction js with
  | nil => simp
  | cons j tl ih =>
    by_cases hp : p j = true
    · have hq : ¬q j = true := fun hq => h j ⟨hp, hq⟩
      simp [List.filter_cons, hp, hq]
      omega
    · by_cases hq : q j = true
      · simp [List.filter_cons, hp, hq]
        omega
      · simp [List.filter_cons, hp, hq]
        omega

/-- C5: the final summary counts a job as failed iff its status is FAILED or
CANCELLED; the success count plus the fail count never exceeds the total job
count; and in every printed summary bucket the batch sub-count plus the local
sub-count equals that bucket's printed total. -/
theorem summary_invariants :
    ∀ js : List Job,
      (∀ j : Job, jobFailedCounted j = true
        ↔ (j.status = Status.failed ∨ j.status = Status.cancelled)) ∧
      (summarize js).failedNames = (js.filter jobFailedCounted).map Job.name ∧
      (summarize js).fLoc + (summarize js).fBatch
        = (js.filter jobFailedCounted).length ∧
      (summarize js).sLoc + (summarize js).sBatch
        + ((summarize js).fLoc + (summarize js).fBatch) ≤ js.length ∧
      (∀ t ∈ printedSummary js, t.1 + t.2.1 = t.2.2) := by
  intro js
  have hsum := summarize_foldl js ⟨0, 0, 0, 0, []⟩
  rw [← summarize] at hsum
  have hsucc := length_filter_split (fun j => j.status == Status.success)
    (fun j => j.jtype == JType.loc) js
  have hfail := length_filter_split jobFailedCounted
    (fun j => j.jtype == JType.loc) js
  have hdisj := length_filter_disjoint (fun j => j.status == Status.success)
    jobFailedCounted js
    (by
      intro j hc
      obtain ⟨h1, h2⟩ := hc
      simp only [beq_iff_eq] at h1
      rw [jobFailedCounted, h1] at h2
      simp at h2)
  refine ⟨?_, ?_, ?_, ?_, ?_⟩
  · intro j
    cases hs : j.status <;> simp [jobFailedCounted, hs]
  · rw [hsum]
    simp
  · rw [hsum]
    simpa using hfail
  · rw [hsum]
    simp only [Nat.zero_add]
    omega
  · intro t ht
    simp only [printedSummary, List.mem_append, List.mem_cons,
      List.not_mem_nil, or_false] at ht
    by_cases hf : (summarize js).failedNames.isEmpty = true
    · rw [if_pos hf] at ht
      simp only [List.not_mem_nil, or_false] at ht
      rcases ht with h | h <;> subst h <;> rfl
    · rw [if_neg hf] at ht
      simp only [List.mem_cons, List.not_mem_nil, or_false] at ht
      rcases ht with (h | h) | h <;> subst h <;> rfl

/-- Witness for `summary_invariants` at a concrete two-job collection. -/
theorem summary_invariants_witness :
    (summarize [⟨"a".data, JType.loc, [], Status.success⟩,
        ⟨"b".data, JType.batch, [], Status.cancelled⟩]).fLoc
      + (summarize [⟨"a".data, JType.loc, [], Status.success⟩,
        ⟨"b".data, JType.batch, [], Status.cancelled⟩]).fBatch
      = (([⟨"a".data, JType.loc, [], Status.success⟩,
        ⟨"b".data, JType.batch, [], Status.cancelled⟩] : List Job).filter
          jobFailedCounted).length
    ∧ (summarize [⟨"a".data, JType.loc, [], Status.success⟩,
        ⟨"b".data, JType.batch, [], Status.cancelled⟩]).sLoc
      + (summarize [⟨"a".data, JType.loc, [], Status.success⟩,
        ⟨"b".data, JType.batch, [], Status.cancelled⟩]).sBatch
      + ((summarize [⟨"a".data, JType.loc, [], Status.success⟩,
        ⟨"b".data, JType.batch, [], Status.cancelled⟩]).fLoc
        + (summarize [⟨"a".data, JType.loc, [], Status.success⟩,
          ⟨"b".data, JType.batch, [], Status.cancelled⟩]).fBatch)
      ≤ ([⟨"a".data, JType.loc, [], Status.success⟩,
        ⟨"b".data, JType.batch, [], Status.cancelled⟩] : List Job).length :=
  ⟨(summary_invariants [⟨"a".data, JType.loc, [], Status.success⟩,
      ⟨"b".data, JType.batch, [], Status.cancelled⟩]).2.2.1,
   (summary_invariants [⟨"a".data, JType.loc, [], Status.success⟩,
      ⟨"b".data, JType.batch, [], Status.cancelled⟩]).2.2.2.1⟩
